import Mathlib

set_option autoImplicit false
set_option maxRecDepth 8000
set_option maxHeartbeats 2000000

/-!
Verification of the shell lexer and AST node model vendored in
weaveworks/build-tools (package `syntax`, files `nodes.go` and the lexer
file given as src/unnamed/part_001).

The Go code is shallowly embedded:
- `Pos` (a `uint32`) is embedded as `Nat` (all arithmetic here is far from
  the 2^32 wrap, and every comparison in the source is unsigned);
- the buffered rune source (`parser.rune`, `parser.fill`, `parser.peekByte`)
  is embedded for ASCII inputs with the whole input in memory: the state
  keeps the current rune (`none` plays the role of the `utf8.RuneSelf`
  end-of-input sentinel) and the list of unread bytes;
- lexer loops are embedded with an explicit fuel argument; running out of
  fuel yields `none`, so every theorem about a loop result is about a run
  that genuinely terminated;
- Go `nil` pointers/interfaces that the source nil-checks are embedded as
  `Option`; indexing that can panic in Go (`Parts[0]` on an empty slice) is
  embedded as `Option`-returning access.
-/

namespace ShSyntax

/-- Token identifiers of the lexer (type `token` in the source).  The Go
names `_EOF`, `_Lit`, `_LitWord`, `_LitRedir` and `at` are spelled `tEOF`,
`tLit`, `tLitWord`, `tLitRedir` and `atTok` here; everything else keeps its
source name. -/
inductive Token where
  | illegalTok
  | tEOF
  | tLit
  | tLitWord
  | tLitRedir
  | sglQuote
  | dblQuote
  | bckQuote
  | and
  | andAnd
  | appAll
  | rdrAll
  | or
  | orOr
  | pipeAll
  | dollar
  | dollSglQuote
  | dollDblQuote
  | dollBrace
  | dollBrack
  | dollParen
  | dollDblParen
  | dblLeftParen
  | leftParen
  | rightParen
  | semicolon
  | dblSemicolon
  | semiFall
  | dblSemiFall
  | hdoc
  | dashHdoc
  | wordHdoc
  | rdrIn
  | rdrInOut
  | dplIn
  | cmdIn
  | rdrOut
  | appOut
  | dplOut
  | clbOut
  | cmdOut
  | rightBrace
  | colon
  | colPlus
  | colMinus
  | colQuest
  | colAssgn
  | plus
  | minus
  | quest
  | assgn
  | perc
  | dblPerc
  | hash
  | dblHash
  | leftBrack
  | rightBrack
  | slash
  | dblSlash
  | caret
  | dblCaret
  | comma
  | dblComma
  | atTok
  | exclMark
  | nequal
  | equal
  | lequal
  | gequal
  | andAssgn
  | orAssgn
  | shlAssgn
  | shrAssgn
  | addAdd
  | addAssgn
  | subSub
  | subAssgn
  | remAssgn
  | power
  | mulAssgn
  | quoAssgn
  | xorAssgn
  | star
  | globQuest
  | globStar
  | globPlus
  | globAt
  | globExcl
  | tsExists
  | tsRegFile
  | tsDirect
  | tsCharSp
  | tsBlckSp
  | tsNmPipe
  | tsSocket
  | tsSmbLink
  | tsGIDSet
  | tsUIDSet
  | tsRead
  | tsWrite
  | tsExec
  | tsNoEmpty
  | tsFdTerm
  | tsEmpStr
  | tsNempStr
  | tsOptSet
  | tsVarSet
  | tsRefVar
  | tsReMatch
  | tsNewer
  | tsOlder
  | tsDevIno
  | tsEql
  | tsNeq
  | tsLeq
  | tsGeq
  | tsLss
  | tsGtr
deriving DecidableEq

/-- Quoting/expansion modes (type `quoteState` in the source).  The
constants themselves live in a file of this package that is not under
src/; the set of modes is taken from the spec (section 4.2) and the
per-mode dispatch in `nextKeepSpaces` / `next`. -/
inductive QuoteState where
  | noState
  | subCmd
  | subCmdBckquo
  | dblQuotes
  | hdocWord
  | hdocBody
  | hdocBodyTabs
  | arithmExprState
  | arithmExprLet
  | arithmExprCmd
  | arithmExprBrack
  | testRegexp
  | switchCase
  | paramExpName
  | paramExpInd
  | paramExpOff
  | paramExpLen
  | paramExpRepl
  | paramExpExp
  | sglQuotes
deriving DecidableEq

namespace QuoteState

/-- Modelled from the spec: the `allKeepSpaces` bit-mask.  Its membership is
forced by the explicit cases of `nextKeepSpaces` in the source (paramExpRepl,
dblQuotes, hdocBody, hdocBodyTabs, paramExpExp, and the default sglQuotes
case). -/
def allKeepSpaces : QuoteState → Bool
  | .paramExpRepl | .dblQuotes | .hdocBody | .hdocBodyTabs
  | .paramExpExp | .sglQuotes => true
  | _ => false

/-- Modelled from the spec: the `allRegTokens` bit-mask (regular command
context and the contexts that tokenize like it). -/
def allRegTokens : QuoteState → Bool
  | .noState | .subCmd | .subCmdBckquo | .hdocWord | .switchCase => true
  | _ => false

/-- Modelled from the spec: the `allArithmExpr` bit-mask (arithmetic
contexts, including the arithmetic parameter-expansion sub-modes). -/
def allArithmExpr : QuoteState → Bool
  | .arithmExprState | .arithmExprLet | .arithmExprCmd | .arithmExprBrack
  | .paramExpInd | .paramExpOff | .paramExpLen => true
  | _ => false

/-- Modelled from the spec: the `allRbrack` bit-mask. -/
def allRbrack : QuoteState → Bool
  | .arithmExprBrack | .paramExpInd => true
  | _ => false

/-- Modelled from the spec: the `allParamReg` bit-mask (regular
parameter-expansion contexts). -/
def allParamReg : QuoteState → Bool
  | .paramExpName | .paramExpInd | .paramExpOff | .paramExpLen => true
  | _ => false

/-- Modelled from the spec: the `allParamExp` bit-mask
(`allParamReg | paramExpRepl | paramExpExp`). -/
def allParamExp : QuoteState → Bool
  | .paramExpName | .paramExpInd | .paramExpOff | .paramExpLen
  | .paramExpRepl | .paramExpExp => true
  | _ => false

end QuoteState

/-- The backquote character (written via its code point so that the source
file contains no backtick). -/
def bq : Char := Char.ofNat 96

/-- `regOps` from the source: bytes that form or start a token. -/
def regOps (r : Char) : Bool :=
  r = ';' ∨ r = '"' ∨ r = '\'' ∨ r = '(' ∨ r = ')' ∨ r = '$' ∨
  r = '|' ∨ r = '&' ∨ r = '>' ∨ r = '<' ∨ r = bq

/-- `paramOps` from the source: tokenized inside parameter expansions. -/
def paramOps (r : Char) : Bool :=
  r = '}' ∨ r = '#' ∨ r = ':' ∨ r = '-' ∨ r = '+' ∨ r = '=' ∨ r = '?' ∨
  r = '%' ∨ r = '[' ∨ r = ']' ∨ r = '/' ∨ r = '^' ∨ r = ',' ∨ r = '@'

/-- `arithmOps` from the source: tokenized inside arithmetic expansions. -/
def arithmOps (r : Char) : Bool :=
  r = '+' ∨ r = '-' ∨ r = '!' ∨ r = '*' ∨ r = '/' ∨ r = '%' ∨ r = '(' ∨
  r = ')' ∨ r = '^' ∨ r = '<' ∨ r = '>' ∨ r = ':' ∨ r = '=' ∨ r = ',' ∨
  r = '?' ∨ r = '|' ∨ r = '&' ∨ r = ']'

/-- `wordBreak` from the source. -/
def wordBreak (r : Char) : Bool :=
  r = ' ' ∨ r = '\t' ∨ r = '\n' ∨ r = ';' ∨ r = '&' ∨ r = '>' ∨ r = '<' ∨
  r = '|' ∨ r = '(' ∨ r = ')' ∨ r = '\r'

/-- Lexer-visible parser state.  `r = none` plays the role of
`p.r == utf8.RuneSelf` (end of input or poisoned after an error);
`inp` is the unread input (the source's sliding `readBuf` window is
embedded as the whole remaining input, `fill` being a no-op);
`npos` is the absolute 1-based position of the last consumed byte
(`p.offs + p.npos` in the source, i.e. `p.getPos()`);
`lines` is `p.f.lines`; `heredocs`/`buriedHdocs` are the lengths of the
corresponding parser slices; `posixConformant` embeds the mode flag
consulted by `p.bash()` (parser configuration, not under src/). -/
structure PState where
  r : Option Char := none
  inp : List Char := []
  npos : Nat := 0
  litBs : Option (List Char) := none
  quote : QuoteState := .noState
  posixConformant : Bool := false
  err : Bool := false
  tok : Token := .illegalTok
  val : List Char := []
  pos : Nat := 0
  spaced : Bool := false
  newLine : Bool := false
  lines : List Nat := []
  heredocs : Nat := 0
  buriedHdocs : Nat := 0
  hdocStop : Option (List Char) := none
  asPos : Nat := 0
  parseComments : Bool := false
  comments : List (Nat × List Char) := []
deriving DecidableEq

/-- Modelled from the spec: `p.bash()` (parser.go, not under src/) reports
whether Bash-compatible parsing is active, i.e. the POSIX-conformant mode
flag is not set. -/
def bash (st : PState) : Bool := !st.posixConformant

/-- `parser.rune` from the source, for ASCII input held fully in memory:
consume one byte, record the newline position (`p.getPos()` after the
increment, hence `npos + 1`), append the byte to the active literal buffer,
and make it the current rune.  On exhausted input the current rune becomes
the end-of-input sentinel exactly once (`npos` is still incremented, as in
the source). -/
def pRune (st : PState) : PState :=
  match st.inp with
  | b :: rest =>
      let npos' := st.npos + 1
      let lines' := if b = '\n' then st.lines ++ [npos'] else st.lines
      let lit' := match st.litBs with
        | some l => some (l ++ [b])
        | none => none
      { st with inp := rest, npos := npos', lines := lines', litBs := lit',
                r := some b }
  | [] =>
      if st.r = none then st
      else { st with r := none, npos := st.npos + 1 }

/-- `parser.peekByte` from the source: check the next unread byte without
consuming it (the `fill` refill is a no-op in this embedding). -/
def peekByte (st : PState) (b : Char) : Bool := st.inp.head? = some b

/-- `parser.newLit` from the source (ASCII case): start a fresh literal
buffer seeded with the current rune. -/
def newLit (st : PState) (c : Char) : PState := { st with litBs := some [c] }

/-- `parser.discardLit` from the source. -/
def discardLit (st : PState) (n : Nat) : PState :=
  match st.litBs with
  | some l => { st with litBs := some (l.take (l.length - n)) }
  | none => st

/-- `parser.endLit` from the source: the literal is everything accumulated,
minus the current (unconsumed-by-the-token) rune when the input has not
ended; the buffer is deactivated. -/
def endLit (st : PState) : List Char × PState :=
  let s : List Char :=
    match st.r, st.litBs with
    | none, some l => l
    | _, some l => if l.length > 0 then l.dropLast else []
    | _, none => []
  (s, { st with litBs := none })

/-- `parser.regToken` from the source: greedy longest-match tokenization of
the regular operators, with the Bash-only ones gated by `p.bash()`.  The
result token is stored in `tok` (the source returns it and the caller
assigns `p.tok`). -/
def regToken (st : PState) (c : Char) : PState :=
  if c = '\'' then { pRune st with tok := .sglQuote }
  else if c = '"' then { pRune st with tok := .dblQuote }
  else if c = bq then { pRune st with tok := .bckQuote }
  else if c = '&' then
    let st1 := pRune st
    if st1.r = some '&' then { pRune st1 with tok := .andAnd }
    else if st1.r = some '>' then
      if !bash st1 then { st1 with tok := .and }
      else
        let st2 := pRune st1
        if st2.r = some '>' then { pRune st2 with tok := .appAll }
        else { st2 with tok := .rdrAll }
    else { st1 with tok := .and }
  else if c = '|' then
    let st1 := pRune st
    if st1.r = some '|' then { pRune st1 with tok := .orOr }
    else if st1.r = some '&' then
      if !bash st1 then { st1 with tok := .or }
      else { pRune st1 with tok := .pipeAll }
    else { st1 with tok := .or }
  else if c = '$' then
    let st1 := pRune st
    if st1.r = some '\'' then
      if !bash st1 then { st1 with tok := .dollar }
      else { pRune st1 with tok := .dollSglQuote }
    else if st1.r = some '"' then
      if !bash st1 then { st1 with tok := .dollar }
      else { pRune st1 with tok := .dollDblQuote }
    else if st1.r = some '{' then { pRune st1 with tok := .dollBrace }
    else if st1.r = some '[' then
      if !bash st1 then { st1 with tok := .dollar }
      else { pRune st1 with tok := .dollBrack }
    else if st1.r = some '(' then
      let st2 := pRune st1
      if st2.r = some '(' then { pRune st2 with tok := .dollDblParen }
      else { st2 with tok := .dollParen }
    else { st1 with tok := .dollar }
  else if c = '(' then
    let st1 := pRune st
    if st1.r = some '(' ∧ bash st1 then { pRune st1 with tok := .dblLeftParen }
    else { st1 with tok := .leftParen }
  else if c = ')' then { pRune st with tok := .rightParen }
  else if c = ';' then
    let st1 := pRune st
    if st1.r = some ';' then
      let st2 := pRune st1
      if st2.r = some '&' ∧ bash st2 then { pRune st2 with tok := .dblSemiFall }
      else { st2 with tok := .dblSemicolon }
    else if st1.r = some '&' then
      if !bash st1 then { st1 with tok := .semicolon }
      else { pRune st1 with tok := .semiFall }
    else { st1 with tok := .semicolon }
  else if c = '<' then
    let st1 := pRune st
    if st1.r = some '<' then
      let st2 := pRune st1
      if st2.r = some '-' then { pRune st2 with tok := .dashHdoc }
      else if st2.r = some '<' ∧ bash st2 then { pRune st2 with tok := .wordHdoc }
      else { st2 with tok := .hdoc }
    else if st1.r = some '>' then { pRune st1 with tok := .rdrInOut }
    else if st1.r = some '&' then { pRune st1 with tok := .dplIn }
    else if st1.r = some '(' then
      if !bash st1 then { st1 with tok := .rdrIn }
      else { pRune st1 with tok := .cmdIn }
    else { st1 with tok := .rdrIn }
  else
    let st1 := pRune st
    if st1.r = some '>' then { pRune st1 with tok := .appOut }
    else if st1.r = some '&' then { pRune st1 with tok := .dplOut }
    else if st1.r = some '|' then { pRune st1 with tok := .clbOut }
    else if st1.r = some '(' then
      if !bash st1 then { st1 with tok := .rdrOut }
      else { pRune st1 with tok := .cmdOut }
    else { st1 with tok := .rdrOut }

/-- `parser.dqToken` from the source: the operators that still break a
double-quoted (or heredoc) literal. -/
def dqToken (st : PState) (c : Char) : PState :=
  if c = '"' then { pRune st with tok := .dblQuote }
  else if c = bq then { pRune st with tok := .bckQuote }
  else
    let st1 := pRune st
    if st1.r = some '{' then { pRune st1 with tok := .dollBrace }
    else if st1.r = some '[' then
      if !bash st1 then { st1 with tok := .dollar }
      else { pRune st1 with tok := .dollBrack }
    else if st1.r = some '(' then
      let st2 := pRune st1
      if st2.r = some '(' then { pRune st2 with tok := .dollDblParen }
      else { st2 with tok := .dollParen }
    else { st1 with tok := .dollar }

/-- `parser.paramToken` from the source: tokenization inside parameter
expansions, longest-match on the doubled operators. -/
def paramToken (st : PState) (c : Char) : PState :=
  if c = '}' then { pRune st with tok := .rightBrace }
  else if c = ':' then
    let st1 := pRune st
    if st1.r = some '+' then { pRune st1 with tok := .colPlus }
    else if st1.r = some '-' then { pRune st1 with tok := .colMinus }
    else if st1.r = some '?' then { pRune st1 with tok := .colQuest }
    else if st1.r = some '=' then { pRune st1 with tok := .colAssgn }
    else { st1 with tok := .colon }
  else if c = '+' then { pRune st with tok := .plus }
  else if c = '-' then { pRune st with tok := .minus }
  else if c = '?' then { pRune st with tok := .quest }
  else if c = '=' then { pRune st with tok := .assgn }
  else if c = '%' then
    let st1 := pRune st
    if st1.r = some '%' then { pRune st1 with tok := .dblPerc }
    else { st1 with tok := .perc }
  else if c = '#' then
    let st1 := pRune st
    if st1.r = some '#' then { pRune st1 with tok := .dblHash }
    else { st1 with tok := .hash }
  else if c = '[' then { pRune st with tok := .leftBrack }
  else if c = '/' then
    let st1 := pRune st
    if st1.r = some '/' then { pRune st1 with tok := .dblSlash }
    else { st1 with tok := .slash }
  else if c = '^' then
    let st1 := pRune st
    if st1.r = some '^' then { pRune st1 with tok := .dblCaret }
    else { st1 with tok := .caret }
  else if c = ',' then
    let st1 := pRune st
    if st1.r = some ',' then { pRune st1 with tok := .dblComma }
    else { st1 with tok := .comma }
  else { pRune st with tok := .atTok }

/-- `parser.arithmToken` from the source: C-style operator set with
longest-match cascades. -/
def arithmToken (st : PState) (c : Char) : PState :=
  if c = '!' then
    let st1 := pRune st
    if st1.r = some '=' then { pRune st1 with tok := .nequal }
    else { st1 with tok := .exclMark }
  else if c = '=' then
    let st1 := pRune st
    if st1.r = some '=' then { pRune st1 with tok := .equal }
    else { st1 with tok := .assgn }
  else if c = '(' then { pRune st with tok := .leftParen }
  else if c = ')' then { pRune st with tok := .rightParen }
  else if c = '&' then
    let st1 := pRune st
    if st1.r = some '&' then { pRune st1 with tok := .andAnd }
    else if st1.r = some '=' then { pRune st1 with tok := .andAssgn }
    else { st1 with tok := .and }
  else if c = '|' then
    let st1 := pRune st
    if st1.r = some '|' then { pRune st1 with tok := .orOr }
    else if st1.r = some '=' then { pRune st1 with tok := .orAssgn }
    else { st1 with tok := .or }
  else if c = '<' then
    let st1 := pRune st
    if st1.r = some '<' then
      let st2 := pRune st1
      if st2.r = some '=' then { pRune st2 with tok := .shlAssgn }
      else { st2 with tok := .hdoc }
    else if st1.r = some '=' then { pRune st1 with tok := .lequal }
    else { st1 with tok := .rdrIn }
  else if c = '>' then
    let st1 := pRune st
    if st1.r = some '>' then
      let st2 := pRune st1
      if st2.r = some '=' then { pRune st2 with tok := .shrAssgn }
      else { st2 with tok := .appOut }
    else if st1.r = some '=' then { pRune st1 with tok := .gequal }
    else { st1 with tok := .rdrOut }
  else if c = '+' then
    let st1 := pRune st
    if st1.r = some '+' then { pRune st1 with tok := .addAdd }
    else if st1.r = some '=' then { pRune st1 with tok := .addAssgn }
    else { st1 with tok := .plus }
  else if c = '-' then
    let st1 := pRune st
    if st1.r = some '-' then { pRune st1 with tok := .subSub }
    else if st1.r = some '=' then { pRune st1 with tok := .subAssgn }
    else { st1 with tok := .minus }
  else if c = '%' then
    let st1 := pRune st
    if st1.r = some '=' then { pRune st1 with tok := .remAssgn }
    else { st1 with tok := .perc }
  else if c = '*' then
    let st1 := pRune st
    if st1.r = some '*' then { pRune st1 with tok := .power }
    else if st1.r = some '=' then { pRune st1 with tok := .mulAssgn }
    else { st1 with tok := .star }
  else if c = '/' then
    let st1 := pRune st
    if st1.r = some '=' then { pRune st1 with tok := .quoAssgn }
    else { st1 with tok := .slash }
  else if c = '^' then
    let st1 := pRune st
    if st1.r = some '=' then { pRune st1 with tok := .xorAssgn }
    else { st1 with tok := .caret }
  else if c = ']' then { pRune st with tok := .rightBrack }
  else if c = ',' then { pRune st with tok := .comma }
  else if c = '?' then { pRune st with tok := .quest }
  else { pRune st with tok := .colon }

/-- `testUnaryOp` from the source: static lookup of unary test operator
spellings, with the explicit illegal sentinel as default. -/
def testUnaryOp (val : List Char) : Token :=
  if val = ['!'] then .exclMark
  else if val = ['-', 'e'] ∨ val = ['-', 'a'] then .tsExists
  else if val = ['-', 'f'] then .tsRegFile
  else if val = ['-', 'd'] then .tsDirect
  else if val = ['-', 'c'] then .tsCharSp
  else if val = ['-', 'b'] then .tsBlckSp
  else if val = ['-', 'p'] then .tsNmPipe
  else if val = ['-', 'S'] then .tsSocket
  else if val = ['-', 'L'] ∨ val = ['-', 'h'] then .tsSmbLink
  else if val = ['-', 'g'] then .tsGIDSet
  else if val = ['-', 'u'] then .tsUIDSet
  else if val = ['-', 'r'] then .tsRead
  else if val = ['-', 'w'] then .tsWrite
  else if val = ['-', 'x'] then .tsExec
  else if val = ['-', 's'] then .tsNoEmpty
  else if val = ['-', 't'] then .tsFdTerm
  else if val = ['-', 'z'] then .tsEmpStr
  else if val = ['-', 'n'] then .tsNempStr
  else if val = ['-', 'o'] then .tsOptSet
  else if val = ['-', 'v'] then .tsVarSet
  else if val = ['-', 'R'] then .tsRefVar
  else .illegalTok

/-- `testBinaryOp` from the source: static lookup of binary test operator
spellings, with the explicit illegal sentinel as default. -/
def testBinaryOp (val : List Char) : Token :=
  if val = ['='] then .assgn
  else if val = ['=', '='] then .equal
  else if val = ['!', '='] then .nequal
  else if val = ['=', '~'] then .tsReMatch
  else if val = ['-', 'n', 't'] then .tsNewer
  else if val = ['-', 'o', 't'] then .tsOlder
  else if val = ['-', 'e', 'f'] then .tsDevIno
  else if val = ['-', 'e', 'q'] then .tsEql
  else if val = ['-', 'n', 'e'] then .tsNeq
  else if val = ['-', 'l', 'e'] then .tsLeq
  else if val = ['-', 'g', 'e'] then .tsGeq
  else if val = ['-', 'l', 't'] then .tsLss
  else if val = ['-', 'g', 't'] then .tsGtr
  else .illegalTok

/-- `Pos.IsValid` from nodes.go: a position is valid iff it is positive
(0 is the invalid/unset position). -/
def posIsValid (p : Nat) : Bool := p > 0

/-- `posMax` from nodes.go. -/
def posMax (p1 p2 : Nat) : Nat := if p2 > p1 then p2 else p1

/-- `Lit` from nodes.go. -/
structure Lit where
  valuePos : Nat
  valueEnd : Nat
  value : List Char
deriving DecidableEq

/-- `Lit.Pos` from nodes.go. -/
def litPos (l : Lit) : Nat := l.valuePos

/-- `Lit.End` from nodes.go. -/
def litEnd (l : Lit) : Nat := l.valueEnd

/-- `Comment` from nodes.go. -/
structure Comment where
  hash : Nat
  text : List Char
deriving DecidableEq

/-- `Comment.Pos` from nodes.go. -/
def commentPos (c : Comment) : Nat := c.hash

/-- `Comment.End` from nodes.go. -/
def commentEnd (c : Comment) : Nat := c.hash + c.text.length

mutual

/-- `Stmt` from nodes.go.  `cmd` is `Option` because the `Cmd Command`
interface field may be nil (checked by `Stmt.End`). -/
inductive Stmt where
  | mk (cmd : Option Command) (position : Nat) (semicolon : Nat)
      (negated : Bool) (background : Bool)
      (assigns : List Assign) (redirs : List Redirect)

/-- The `Command` interface of nodes.go as a closed tagged union; each
node struct implementing it becomes one constructor with that struct's
fields (operator enums are embedded as `Token`). -/
inductive Command where
  | callExpr (args : List Word)
  | ifClause (ifPos thenPos elsePos fiPos : Nat)
      (condStmts thenStmts : List Stmt) (elifs : List Elif)
      (elseStmts : List Stmt)
  | whileClause (whilePos doPos donePos : Nat)
      (condStmts doStmts : List Stmt)
  | untilClause (untilPos doPos donePos : Nat)
      (condStmts doStmts : List Stmt)
  | forClause (forPos doPos donePos : Nat) (loop : Loop)
      (doStmts : List Stmt)
  | caseClause (casePos esacPos : Nat) (word : Word)
      (list : List PatternList)
  | block (lbrace rbrace : Nat) (stmts : List Stmt)
  | subshell (lparen rparen : Nat) (stmts : List Stmt)
  | binaryCmd (opPos : Nat) (op : Token) (x y : Stmt)
  | funcDecl (position : Nat) (bashStyle : Bool) (name : Lit) (body : Stmt)
  | arithmCmd (left right : Nat) (x : ArithmExpr)
  | testClause (left right : Nat) (x : TestExpr)
  | declClause (position : Nat) (variant : List Char) (opts : List Word)
      (assigns : List Assign)
  | evalClause (evalPos : Nat) (stmt : Option Stmt)
  | letClause (letPos : Nat) (exprs : List ArithmExpr)
  | coprocClause (coproc : Nat) (name : Option Lit) (stmt : Stmt)

/-- `Elif` from nodes.go. -/
inductive Elif where
  | mk (elifPos thenPos : Nat) (condStmts thenStmts : List Stmt)

/-- The `Loop` interface of nodes.go as a closed tagged union. -/
inductive Loop where
  | wordIter (name : Lit) (list : List Word)
  | cStyleLoop (lparen rparen : Nat) (init cond post : ArithmExpr)

/-- `Word` from nodes.go. -/
inductive Word where
  | mk (parts : List WordPart)

/-- The `WordPart` interface of nodes.go as a closed tagged union. -/
inductive WordPart where
  | lit (l : Lit)
  | sglQuoted (position : Nat) (dollar : Bool) (value : List Char)
  | dblQuoted (position : Nat) (dollar : Bool) (parts : List WordPart)
  | paramExp (dollar rbrace : Nat) (short length : Bool)
      (param : Option Lit) (ind : Option IndexExpr) (slice : Option SliceExpr)
      (repl : Option ReplaceExpr) (exp : Option ExpansionExpr)
  | cmdSubst (left right : Nat) (stmts : List Stmt)
  | arithmExp (left right : Nat) (bracket : Bool) (x : ArithmExpr)
  | procSubst (opPos rparen : Nat) (op : Token) (stmts : List Stmt)
  | arrayExpr (lparen rparen : Nat) (list : List Word)
  | extGlob (opPos : Nat) (op : Token) (pattern : Lit)

/-- `Index` from nodes.go. -/
inductive IndexExpr where
  | mk (expr : ArithmExpr)

/-- `Slice` from nodes.go (both arithmetic children may be absent). -/
inductive SliceExpr where
  | mk (offset length : Option ArithmExpr)

/-- `Replace` from nodes.go. -/
inductive ReplaceExpr where
  | mk (all : Bool) (orig _with : Option Word)

/-- `Expansion` from nodes.go. -/
inductive ExpansionExpr where
  | mk (op : Token) (word : Option Word)

/-- The `ArithmExpr` interface of nodes.go as a closed tagged union. -/
inductive ArithmExpr where
  | binaryArithm (opPos : Nat) (op : Token) (x y : ArithmExpr)
  | unaryArithm (opPos : Nat) (op : Token) (post : Bool) (x : ArithmExpr)
  | parenArithm (lparen rparen : Nat) (x : ArithmExpr)
  | word (w : Word)

/-- The `TestExpr` interface of nodes.go as a closed tagged union. -/
inductive TestExpr where
  | binaryTest (opPos : Nat) (op : Token) (x y : TestExpr)
  | unaryTest (opPos : Nat) (op : Token) (x : TestExpr)
  | parenTest (lparen rparen : Nat) (x : TestExpr)
  | word (w : Word)

/-- `Redirect` from nodes.go. -/
inductive Redirect where
  | mk (opPos : Nat) (op : Token) (n : Option Lit) (word : Word)
      (hdoc : Option Word)

/-- `Assign` from nodes.go. -/
inductive Assign where
  | mk (append : Bool) (name : Option Lit) (value : Option Word)

/-- `PatternList` from nodes.go. -/
inductive PatternList where
  | mk (op : Token) (opPos : Nat) (patterns : List Word)
      (stmts : List Stmt)

end

/-- `Stmt.Pos` from nodes.go: the stored `Position`. -/
def stmtPos : Stmt → Nat
  | .mk _ position _ _ _ _ _ => position

/-- `Redirect.Pos` from nodes.go. -/
def redirectPos : Redirect → Nat
  | .mk opPos _ n _ _ =>
    match n with
    | some l => litPos l
    | none => opPos

mutual

/-- `Stmt.End` from nodes.go.  A `none` result embeds a Go panic in a
child `End()` (never an intended value). -/
def stmtEnd : Stmt → Option Nat
  | .mk cmd position semicolon negated _ assigns redirs =>
    if posIsValid semicolon then some (semicolon + 1)
    else
      (match cmd with
       | none => some (if negated then position + 1 else position)
       | some c => commandEnd c).bind fun e1 =>
      (match assigns with
       | [] => some e1
       | _ => (assignsLastEnd assigns).map fun e => posMax e1 e).bind fun e2 =>
      match redirs with
      | [] => some e2
      | _ => (redirsLastEnd redirs).map fun e => posMax e2 e

/-- The `Pos()` methods of the `Command` variants, from nodes.go.  Note
that `Block.Pos` returns the `Rbrace` field, exactly as in the source. -/
def commandPos : Command → Option Nat
  | .callExpr args =>
    match args with
    | [] => none
    | w :: _ => wordPos w
  | .ifClause ifPos _ _ _ _ _ _ _ => some ifPos
  | .whileClause whilePos _ _ _ _ => some whilePos
  | .untilClause untilPos _ _ _ _ => some untilPos
  | .forClause forPos _ _ _ _ => some forPos
  | .caseClause casePos _ _ _ => some casePos
  | .block _ rbrace _ => some rbrace
  | .subshell lparen _ _ => some lparen
  | .binaryCmd _ _ x _ => some (stmtPos x)
  | .funcDecl position _ _ _ => some position
  | .arithmCmd left _ _ => some left
  | .testClause left _ _ => some left
  | .declClause position _ _ _ => some position
  | .evalClause evalPos _ => some evalPos
  | .letClause letPos _ => some letPos
  | .coprocClause coproc _ _ => some coproc

/-- The `End()` methods of the `Command` variants, from nodes.go. -/
def commandEnd : Command → Option Nat
  | .callExpr args => callArgsLastEnd args
  | .ifClause _ _ _ fiPos _ _ _ _ => some (fiPos + 2)
  | .whileClause _ _ donePos _ _ => some (donePos + 4)
  | .untilClause _ _ donePos _ _ => some (donePos + 4)
  | .forClause _ _ donePos _ _ => some (donePos + 4)
  | .caseClause _ esacPos _ _ => some (esacPos + 4)
  | .block _ rbrace _ => some (rbrace + 1)
  | .subshell _ rparen _ => some (rparen + 1)
  | .binaryCmd _ _ _ y => stmtEnd y
  | .funcDecl _ _ _ body => stmtEnd body
  | .arithmCmd _ right _ => some (right + 2)
  | .testClause _ right _ => some (right + 2)
  | .declClause _ _ opts assigns =>
    match assigns with
    | [] => wordLastEnd opts
    | _ => assignsLastEnd assigns
  | .evalClause evalPos stmt =>
    match stmt with
    | none => some (evalPos + 4)
    | some s => stmtEnd s
  | .letClause _ exprs => arithmsLastEnd exprs
  | .coprocClause _ _ stmt => stmtEnd stmt

/-- `CallExpr.End`: `c.Args[len(c.Args)-1].End()`; panics (`none`) on an
empty argument list. -/
def callArgsLastEnd : List Word → Option Nat
  | [] => none
  | [w] => wordEnd w
  | _ :: ws => callArgsLastEnd ws

/-- `wordLastEnd` from nodes.go: 0 for an empty list, otherwise the last
word's `End()`. -/
def wordLastEnd : List Word → Option Nat
  | [] => some 0
  | [w] => wordEnd w
  | _ :: ws => wordLastEnd ws

/-- The `Pos()` methods of the `Loop` variants, from nodes.go. -/
def loopPos : Loop → Option Nat
  | .wordIter name _ => some (litPos name)
  | .cStyleLoop lparen _ _ _ _ => some lparen

/-- The `End()` methods of the `Loop` variants, from nodes.go. -/
def loopEnd : Loop → Option Nat
  | .wordIter name list => (wordLastEnd list).map fun e => posMax (litEnd name) e
  | .cStyleLoop _ rparen _ _ _ => some (rparen + 2)

/-- `Word.Pos` from nodes.go: `w.Parts[0].Pos()`; panics (`none`) on an
empty part list. -/
def wordPos : Word → Option Nat
  | .mk parts =>
    match parts with
    | [] => none
    | p :: _ => some (wordPartPos p)

/-- `Word.End` from nodes.go: `w.Parts[len(w.Parts)-1].End()`; panics
(`none`) on an empty part list. -/
def wordEnd : Word → Option Nat
  | .mk parts => wordPartsLastEnd parts

/-- Last-element `End()` over a `WordPart` slice (used by `Word.End` and
`DblQuoted.End`). -/
def wordPartsLastEnd : List WordPart → Option Nat
  | [] => none
  | [p] => wordPartEnd p
  | _ :: ps => wordPartsLastEnd ps

/-- The `Pos()` methods of the `WordPart` variants, from nodes.go (all are
stored fields, hence total). -/
def wordPartPos : WordPart → Nat
  | .lit l => litPos l
  | .sglQuoted position _ _ => position
  | .dblQuoted position _ _ => position
  | .paramExp dollar _ _ _ _ _ _ _ _ => dollar
  | .cmdSubst left _ _ => left
  | .arithmExp left _ _ _ => left
  | .procSubst opPos _ _ _ => opPos
  | .arrayExpr lparen _ _ => lparen
  | .extGlob opPos _ _ => opPos

/-- The `End()` methods of the `WordPart` variants, from nodes.go. -/
def wordPartEnd : WordPart → Option Nat
  | .lit l => some (litEnd l)
  | .sglQuoted position dollar value =>
    some (position + 2 + value.length + (if dollar then 1 else 0))
  | .dblQuoted position dollar parts =>
    match parts with
    | [] => some (if dollar then position + 3 else position + 2)
    | _ => (wordPartsLastEnd parts).map fun e => e + 1
  | .paramExp _ rbrace short _ param _ _ _ _ =>
    if short then
      match param with
      | some l => some (litEnd l)
      | none => none
    else some (rbrace + 1)
  | .cmdSubst _ right _ => some (right + 1)
  | .arithmExp _ right bracket _ =>
    some (if bracket then right + 1 else right + 2)
  | .procSubst _ rparen _ _ => some (rparen + 1)
  | .arrayExpr _ rparen _ => some (rparen + 1)
  | .extGlob _ _ pattern => some (litEnd pattern + 1)

/-- The `Pos()` methods of the `ArithmExpr` variants, from nodes.go. -/
def arithmPos : ArithmExpr → Option Nat
  | .binaryArithm _ _ x _ => arithmPos x
  | .unaryArithm opPos _ post x => if post then arithmPos x else some opPos
  | .parenArithm lparen _ _ => some lparen
  | .word w => wordPos w

/-- The `End()` methods of the `ArithmExpr` variants, from nodes.go. -/
def arithmEnd : ArithmExpr → Option Nat
  | .binaryArithm _ _ _ y => arithmEnd y
  | .unaryArithm opPos _ post x => if post then some (opPos + 2) else arithmEnd x
  | .parenArithm _ rparen _ => some (rparen + 1)
  | .word w => wordEnd w

/-- `LetClause.End`: `l.Exprs[len(l.Exprs)-1].End()`; panics (`none`) on an
empty list. -/
def arithmsLastEnd : List ArithmExpr → Option Nat
  | [] => none
  | [e] => arithmEnd e
  | _ :: es => arithmsLastEnd es

/-- The `Pos()` methods of the `TestExpr` variants, from nodes.go. -/
def testPos : TestExpr → Option Nat
  | .binaryTest _ _ x _ => testPos x
  | .unaryTest opPos _ _ => some opPos
  | .parenTest lparen _ _ => some lparen
  | .word w => wordPos w

/-- The `End()` methods of the `TestExpr` variants, from nodes.go. -/
def testEnd : TestExpr → Option Nat
  | .binaryTest _ _ _ y => testEnd y
  | .unaryTest _ _ x => testEnd x
  | .parenTest _ rparen _ => some (rparen + 1)
  | .word w => wordEnd w

/-- `Redirect.End` from nodes.go: `r.Word.End()`. -/
def redirectEnd : Redirect → Option Nat
  | .mk _ _ _ word _ => wordEnd word

/-- `Assign.Pos` from nodes.go. -/
def assignPos : Assign → Option Nat
  | .mk _ name value =>
    match name with
    | some l => some (litPos l)
    | none =>
      match value with
      | some w => wordPos w
      | none => none

/-- `Assign.End` from nodes.go. -/
def assignEnd : Assign → Option Nat
  | .mk _ name value =>
    match value with
    | some w => wordEnd w
    | none =>
      match name with
      | some l => some (litEnd l + 1)
      | none => none

/-- Last-element `End()` over an `Assign` slice. -/
def assignsLastEnd : List Assign → Option Nat
  | [] => none
  | [a] => assignEnd a
  | _ :: as_ => assignsLastEnd as_

/-- Last-element `End()` over a `Redirect` slice. -/
def redirsLastEnd : List Redirect → Option Nat
  | [] => none
  | [r] => redirectEnd r
  | _ :: rs => redirsLastEnd rs

end

/-- `File` from nodes.go. -/
structure SFile where
  name : List Char := []
  stmts : List Stmt := []
  comments : List Comment := []
  lines : List Nat := []

/-- `File.Pos` from nodes.go: 0 (the invalid position) for an empty
statement list, otherwise the first statement's `Pos()`. -/
def filePos (f : SFile) : Nat :=
  match f.stmts with
  | [] => 0
  | s :: _ => stmtPos s

/-- `File.End` from nodes.go: 0 (the invalid position) for an empty
statement list, otherwise the last statement's `End()`. -/
def fileEnd (f : SFile) : Option Nat :=
  match f.stmts.getLast? with
  | none => some 0
  | some s => stmtEnd s

/-- The loop of `parser.advanceLitOther` from the source.  One fuel unit is
spent per iteration; `none` means the fuel ran out (never a lexing
result). -/
def advanceLitOtherLoop : Nat → PState → Token → Option (PState × Token)
  | 0, _, _ => none
  | fuel + 1, st, tok =>
    match st.r with
    | none => some (st, tok)
    | some c =>
      if c = '\\' then
        let st1 := pRune st
        match st1.r with
        | none => some (st1, tok)
        | some c1 =>
          let st2 := if c1 = '\n' then discardLit st1 2 else st1
          advanceLitOtherLoop fuel (pRune st2) tok
      else if c = '\n' then
        match st.quote with
        | .sglQuotes | .paramExpRepl | .paramExpExp =>
          advanceLitOtherLoop fuel (pRune st) tok
        | _ => some (st, tok)
      else if c = '\'' then
        match st.quote with
        | .paramExpExp | .paramExpRepl =>
          advanceLitOtherLoop fuel (pRune st) tok
        | _ => some (st, tok)
      else if c = '"' ∨ c = bq ∨ c = '$' then
        if st.quote ≠ .sglQuotes then some (st, .tLit)
        else advanceLitOtherLoop fuel (pRune st) tok
      else if c = '}' then
        if st.quote.allParamExp then some (st, tok)
        else advanceLitOtherLoop fuel (pRune st) tok
      else if c = '/' then
        if st.quote.allParamExp ∧ st.quote ≠ .paramExpExp then some (st, tok)
        else advanceLitOtherLoop fuel (pRune st) tok
      else if c = ']' then
        if st.quote.allRbrack then some (st, tok)
        else advanceLitOtherLoop fuel (pRune st) tok
      else if c = '!' ∨ c = '*' then
        if st.quote.allArithmExpr then some (st, tok)
        else advanceLitOtherLoop fuel (pRune st) tok
      else if c = ':' ∨ c = '=' ∨ c = '%' ∨ c = '?' ∨ c = '^' ∨ c = ',' then
        if st.quote.allArithmExpr ∨ st.quote.allParamReg then some (st, tok)
        else advanceLitOtherLoop fuel (pRune st) tok
      else if c = '#' ∨ c = '[' ∨ c = '@' then
        if st.quote.allParamReg then some (st, tok)
        else advanceLitOtherLoop fuel (pRune st) tok
      else if c = '+' ∨ c = '-' then
        match st.quote with
        | .paramExpInd | .paramExpLen | .paramExpOff | .paramExpExp
        | .paramExpRepl | .sglQuotes => advanceLitOtherLoop fuel (pRune st) tok
        | _ => some (st, tok)
      else if c = ' ' ∨ c = '\t' ∨ c = ';' ∨ c = '&' ∨ c = '>' ∨ c = '<' ∨
              c = '|' ∨ c = '(' ∨ c = ')' ∨ c = '\r' then
        match st.quote with
        | .paramExpExp | .paramExpRepl | .sglQuotes =>
          advanceLitOtherLoop fuel (pRune st) tok
        | _ => some (st, tok)
      else advanceLitOtherLoop fuel (pRune st) tok

/-- `parser.advanceLitOther` from the source: seed the literal buffer with
the current rune `c`, run the loop, then publish `tok`/`val`. -/
def advanceLitOther (fuel : Nat) (st : PState) (c : Char) : Option PState :=
  (advanceLitOtherLoop fuel (newLit st c) .tLitWord).map fun p =>
    let (v, st') := endLit p.1
    { st' with tok := p.2, val := v }

/-- The loop of `parser.advanceLitNone` from the source. -/
def advanceLitNoneLoop : Nat → PState → Token → Option (PState × Token)
  | 0, _, _ => none
  | fuel + 1, st, tok =>
    match st.r with
    | none => some (st, tok)
    | some c =>
      if c = ' ' ∨ c = '\t' ∨ c = '\n' ∨ c = '\r' ∨ c = '&' ∨ c = '|' ∨
         c = ';' ∨ c = '(' ∨ c = ')' then
        some (st, tok)
      else if c = '\\' then
        let st1 := pRune st
        match st1.r with
        | none => some (st1, tok)
        | some c1 =>
          let st2 := if c1 = '\n' then discardLit st1 2 else st1
          advanceLitNoneLoop fuel (pRune st2) tok
      else if c = '>' ∨ c = '<' then
        if peekByte st '(' then some (st, .tLit) else some (st, .tLitRedir)
      else if c = bq then
        if st.quote ≠ .subCmdBckquo then some (st, .tLit) else some (st, tok)
      else if c = '"' ∨ c = '\'' ∨ c = '$' then some (st, .tLit)
      else if c = '?' ∨ c = '*' ∨ c = '+' ∨ c = '@' ∨ c = '!' then
        if peekByte st '(' then some (st, .tLit)
        else advanceLitNoneLoop fuel (pRune st) tok
      else if c = '=' then
        let l := st.litBs.getD []
        let a := l.length - 1
        let a :=
          if bash st ∧ a > 0 ∧ l.getD (l.length - 2) ' ' = '+' then a - 1
          else a
        advanceLitNoneLoop fuel (pRune { st with asPos := a }) tok
      else advanceLitNoneLoop fuel (pRune st) tok

/-- `parser.advanceLitNone` from the source. -/
def advanceLitNone (fuel : Nat) (st : PState) (c : Char) : Option PState :=
  (advanceLitNoneLoop fuel (newLit { st with asPos := 0 } c) .tLitWord).map
    fun p =>
      let (v, st') := endLit p.1
      { st' with tok := p.2, val := v }

/-- The loop of `parser.advanceLitDquote` from the source.  Note that a
backslash and the rune following it are both kept in the literal buffer:
unlike the none/other variants there is no elision of an escaped
newline. -/
def advanceLitDquoteLoop : Nat → PState → Token → Option (PState × Token)
  | 0, _, _ => none
  | fuel + 1, st, tok =>
    match st.r with
    | none => some (st, tok)
    | some c =>
      if c = '"' then some (st, tok)
      else if c = '\\' then
        let st1 := pRune st
        match st1.r with
        | none => some (st1, tok)
        | some _ => advanceLitDquoteLoop fuel (pRune st1) tok
      else if c = bq ∨ c = '$' then some (st, .tLit)
      else advanceLitDquoteLoop fuel (pRune st) tok

/-- `parser.advanceLitDquote` from the source. -/
def advanceLitDquote (fuel : Nat) (st : PState) (c : Char) : Option PState :=
  (advanceLitDquoteLoop fuel (newLit st c) .tLitWord).map fun p =>
    let (v, st') := endLit p.1
    { st' with tok := p.2, val := v }

/-- The tab-stripping inner loops of the heredoc routines
(`for r == '\t' { r = p.rune() }`). -/
def skipTabs : Nat → PState → Option PState
  | 0, st => if st.r = some '\t' then none else some st
  | fuel + 1, st =>
    if st.r = some '\t' then skipTabs fuel (pRune st) else some st

/-- The loop of `parser.advanceLitHdoc` from the source.  `endOff` is the
offset in the literal buffer where the current line starts; at each
newline `litBs[endOff : len-1]` is compared against the stop word, and on
an exact match the delimiter text is discarded and the loop exits with the
stop word cleared. -/
def advanceLitHdocLoop : Nat → PState → Nat → Option (PState × Nat)
  | 0, _, _ => none
  | fuel + 1, st, endOff =>
    match st.r with
    | none => some (st, endOff)
    | some c =>
      if c = bq ∨ c = '$' then some (st, endOff)
      else if c = '\\' then
        let st1 := pRune st
        match st1.r with
        | none => some (st1, endOff)
        | some _ => advanceLitHdocLoop fuel (pRune st1) endOff
      else if c = '\n' then
        let l := st.litBs.getD []
        if (l.drop endOff).dropLast = st.hdocStop.getD [] then
          some (discardLit { st with hdocStop := none }
                  (st.hdocStop.getD []).length, endOff)
        else
          let st1 := pRune st
          match (if st1.quote = .hdocBodyTabs then skipTabs fuel st1
                 else some st1) with
          | none => none
          | some st2 =>
            let endOff' := (st2.litBs.getD []).length - 1
            advanceLitHdocLoop fuel (pRune st2) endOff'
      else advanceLitHdocLoop fuel (pRune st) endOff

/-- `parser.advanceLitHdoc` from the source, including the final
end-of-input stop-word comparison after the loop. -/
def advanceLitHdoc (fuel : Nat) (st : PState) (c : Char) : Option PState := do
  let st := newLit st c
  let st ← if st.quote = .hdocBodyTabs then skipTabs fuel st else some st
  let endOff := (st.litBs.getD []).length - 1
  let (st, endOff) ← advanceLitHdocLoop fuel st endOff
  let l := st.litBs.getD []
  let st :=
    if l.drop endOff = st.hdocStop.getD [] then
      discardLit { st with hdocStop := none } (st.hdocStop.getD []).length
    else st
  let (v, st) := endLit st
  some { st with tok := .tLit, val := v }

/-- The inner line-consuming loop of `parser.hdocLitWord`
(`for r != utf8.RuneSelf && r != '\n' { r = p.rune() }`). -/
def hdocSkipLine : Nat → PState → Option PState
  | 0, st =>
    match st.r with
    | none => some st
    | some c => if c = '\n' then some st else none
  | fuel + 1, st =>
    match st.r with
    | none => some st
    | some c => if c = '\n' then some st else hdocSkipLine fuel (pRune st)

/-- The outer loop of `parser.hdocLitWord` from the source. -/
def hdocLitWordLoop : Nat → PState → Option PState
  | 0, st => if st.r = none then some st else none
  | fuel + 1, st =>
    match st.r with
    | none => some st
    | some _ => do
      let st ← if st.quote = .hdocBodyTabs then skipTabs fuel st else some st
      let endOff := (st.litBs.getD []).length - 1
      let st ← hdocSkipLine fuel st
      let l := st.litBs.getD []
      if st.r = none ∧ l.drop endOff = st.hdocStop.getD [] then
        some (discardLit st (st.hdocStop.getD []).length)
      else if (l.drop endOff).dropLast = st.hdocStop.getD [] then
        some (discardLit st (st.hdocStop.getD []).length)
      else hdocLitWordLoop fuel (pRune st)

/-- `parser.hdocLitWord` from the source: lex a whole (quoted-stop-word)
heredoc body into a single-literal `Word`.  The `p.lit`/`p.word`/
`p.singleWps` node builders live in the parser driver (not under src/) and
are modelled from the spec as building a `Lit` spanning from the start
position to the current `p.getPos()` wrapped in a one-part `Word`. -/
def hdocLitWord (fuel : Nat) (st : PState) : Option (Word × PState) := do
  match st.r with
  | none => none
  | some c =>
    let st := newLit st c
    let pos := st.npos
    let st ← hdocLitWordLoop fuel st
    let (v, st) := endLit st
    some (Word.mk [WordPart.lit ⟨pos, st.npos, v⟩], st)

/-- `parser.advanceLitRe` from the source. -/
def advanceLitReLoop : Nat → PState → Int → Option (PState × Int)
  | 0, _, _ => none
  | fuel + 1, st, lparens =>
    match st.r with
    | none => some (st, lparens)
    | some c =>
      if c = '(' then advanceLitReLoop fuel (pRune st) (lparens + 1)
      else if c = ')' then advanceLitReLoop fuel (pRune st) (lparens - 1)
      else if c = ' ' ∨ c = '\t' ∨ c = '\r' ∨ c = '\n' then
        if lparens = 0 then some (st, lparens)
        else advanceLitReLoop fuel (pRune st) lparens
      else advanceLitReLoop fuel (pRune st) lparens

/-- `parser.advanceLitRe` from the source (wrapper). -/
def advanceLitRe (fuel : Nat) (st : PState) (c : Char) : Option PState :=
  (advanceLitReLoop fuel (newLit st c) 0).map fun p =>
    let (v, st') := endLit p.1
    { st' with tok := .tLitWord, val := v }

/-- `parser.nextKeepSpaces` from the source: tokenization in the quote
modes that keep whitespace (`allKeepSpaces`). -/
def nextKeepSpaces (fuel : Nat) (st : PState) : Option PState :=
  match st.r with
  | none => none
  | some c =>
    let st := { st with pos := st.npos }
    match st.quote with
    | .paramExpRepl =>
      if c = '}' ∨ c = '/' then some (paramToken st c)
      else if c = bq ∨ c = '"' ∨ c = '$' then some (dqToken st c)
      else advanceLitOther fuel st c
    | .dblQuotes =>
      if c = bq ∨ c = '"' ∨ c = '$' then some (dqToken st c)
      else advanceLitDquote fuel st c
    | .hdocBody | .hdocBodyTabs =>
      if c = bq ∨ c = '$' then some (dqToken st c)
      else if st.hdocStop = none then some { st with tok := .illegalTok }
      else advanceLitHdoc fuel st c
    | .paramExpExp =>
      if c = '}' then some { pRune st with tok := .rightBrace }
      else if c = bq ∨ c = '"' ∨ c = '$' then some (dqToken st c)
      else advanceLitOther fuel st c
    | _ =>
      if c = '\'' then some { pRune st with tok := .sglQuote }
      else advanceLitOther fuel st c

/-- Modelled from the spec: `parser.doHeredocs` (parser driver, not under
src/) processes the queued heredocs at the first unburied newline
(spec section 4.5).  None of the theorems below ever run it (their states
have no queued heredocs), so it is modelled minimally as consuming the
queue. -/
def doHeredocs (st : PState) : PState :=
  { st with heredocs := st.buriedHdocs }

/-- The comment-consuming loop inside `parser.next`
(`for r != utf8.RuneSelf && r != '\n' { r = p.rune() }`). -/
def commentSkip : Nat → PState → Option PState
  | 0, st =>
    match st.r with
    | none => some st
    | some c => if c = '\n' then some st else none
  | fuel + 1, st =>
    match st.r with
    | none => some st
    | some c => if c = '\n' then some st else commentSkip fuel (pRune st)

/-- The `skipSpace` loop of `parser.next` together with the token dispatch
that follows it, from the source.  `nextFn` is the recursive `p.next()`
call made after a comment has been consumed. -/
def nextSkipSpace (nextFn : PState → Option PState) :
    Nat → PState → Option PState
  | 0, _ => none
  | fuel + 1, st =>
    match st.r with
    | none => some { st with tok := .tEOF }
    | some c =>
      if c = ' ' ∨ c = '\t' ∨ c = '\r' then
        nextSkipSpace nextFn fuel (pRune { st with spaced := true })
      else if c = '\n' then
        if st.quote = .arithmExprLet ∨ st.quote = .hdocWord then
          some { st with tok := .illegalTok }
        else
          let st := pRune { st with spaced := true, newLine := true }
          if st.heredocs > st.buriedHdocs ∧ st.err = false then
            let st := doHeredocs st
            if st.tok = .tEOF then some st
            else nextSkipSpace nextFn fuel st
          else nextSkipSpace nextFn fuel st
      else if c = '\\' ∧ peekByte st '\n' then
        nextSkipSpace nextFn fuel (pRune (pRune st))
      else
        let st := { st with pos := st.npos }
        let res :=
          if st.quote.allRegTokens then
            if regOps c then some (regToken st c)
            else if c = '#' then
              let st := pRune st
              let st :=
                match st.r with
                | some c2 => newLit st c2
                | none => { st with litBs := some [] }
              match commentSkip fuel st with
              | none => none
              | some st =>
                if st.parseComments then
                  let (v, st) := endLit st
                  nextFn { st with comments := st.comments ++ [(st.pos, v)] }
                else nextFn { st with litBs := none }
            else if c = '?' ∨ c = '*' ∨ c = '+' ∨ c = '@' ∨ c = '!' then
              if peekByte st '(' then
                let t : Token :=
                  if c = '?' then .globQuest
                  else if c = '*' then .globStar
                  else if c = '+' then .globPlus
                  else if c = '@' then .globAt
                  else .globExcl
                some (pRune (pRune { st with tok := t }))
              else advanceLitNone fuel st c
            else advanceLitNone fuel st c
          else if st.quote.allArithmExpr ∧ arithmOps c then
            some (arithmToken st c)
          else if st.quote.allParamExp ∧ paramOps c then
            some (paramToken st c)
          else if st.quote = .testRegexp then
            if regOps c ∧ c ≠ '(' then some (regToken st c)
            else advanceLitRe fuel st c
          else if regOps c then some (regToken st c)
          else advanceLitOther fuel st c
        res.map fun st' =>
          if st'.err ∧ st'.tok ≠ .tEOF then { st' with tok := .tEOF }
          else st'

/-- `parser.next` from the source: the end-of-input sentinel check, the
keep-spaces dispatch, and otherwise the skip-space loop with regular
dispatch. -/
def next : Nat → PState → Option PState
  | 0, _ => none
  | fuel + 1, st =>
    if st.r = none then some { st with tok := .tEOF }
    else
      let st := { st with spaced := false, newLine := false }
      if st.quote.allKeepSpaces then nextKeepSpaces fuel st
      else nextSkipSpace (next fuel) fuel st

/-- `Position` from nodes.go (byte offset from 0, line and column from
1). -/
structure Position where
  offset : Int
  line : Nat
  column : Nat
deriving DecidableEq

/-- `Position.IsValid` from nodes.go. -/
def positionIsValid (p : Position) : Bool := p.line > 0

/-- The loop of `searchPos` from nodes.go, with the loop variables `i`, `j`
explicit and one fuel unit per iteration.  Fuel `a.length` always
suffices because `j - i` strictly decreases. -/
def searchPosAux (a : List Nat) (x : Nat) : Nat → Nat → Nat → Nat
  | 0, i, _ => i
  | fuel + 1, i, j =>
    if i < j then
      let h := i + (j - i) / 2
      if a.getD h 0 ≤ x then searchPosAux a x fuel (h + 1) j
      else searchPosAux a x fuel i h
    else i

/-- `searchPos` from nodes.go: binary search returning the greatest index
whose entry is `≤ x`, or `-1`. -/
def searchPos (a : List Nat) (x : Nat) : Int :=
  (searchPosAux a x a.length 0 a.length : Int) - 1

/-- `File.Position` from nodes.go, as a function of the recorded newline
positions: offset is `p - 1`; when the binary search finds an entry,
line is its index plus one and column is `p` minus that entry; otherwise
line and column stay 0. -/
def filePosition (lines : List Nat) (p : Nat) : Position :=
  let i := searchPos lines p
  if 0 ≤ i then
    { offset := (p : Int) - 1, line := i.toNat + 1,
      column := p - lines.getD i.toNat 0 }
  else { offset := (p : Int) - 1, line := 0, column := 0 }

/-- `File.Position` from nodes.go applied to a `File`. -/
def filePositionF (f : SFile) (p : Nat) : Position := filePosition f.lines p

/-- The 1-based positions of the newline bytes of `s`, when consumption
starts after `n` bytes have already been consumed: exactly the values
`p.getPos()` that `parser.rune` appends to `p.f.lines`. -/
def newlinePositionsFrom : Nat → List Char → List Nat
  | _, [] => []
  | n, c :: cs =>
    if c = '\n' then (n + 1) :: newlinePositionsFrom (n + 1) cs
    else newlinePositionsFrom (n + 1) cs

/-- Modelled from the spec: the parser initializes `p.f.lines` with a
single entry 0 before lexing (parser initialization, not under src/), so
that positions before the first recorded newline resolve to line 1
(spec section 4.3); `parser.rune` (in src) then appends the position of
every consumed newline.  `linesFor s` is the resulting index for input
`s`. -/
def linesFor (s : List Char) : List Nat := 0 :: newlinePositionsFrom 0 s

/-- Run `parser.rune` until the unread input is exhausted (fuel-bounded). -/
def runRunes : Nat → PState → PState
  | 0, st => st
  | fuel + 1, st =>
    match st.inp with
    | [] => st
    | _ :: _ => runRunes fuel (pRune st)

/-- Sortedness of a `Nat` list expressed through `getD`, the access used
by `searchPos`. -/
def SortedNat (a : List Nat) : Prop :=
  ∀ i j, i ≤ j → j < a.length → a.getD i 0 ≤ a.getD j 0

lemma getD_eq_get (a : List Nat) (i : Nat) (h : i < a.length) :
    a.getD i 0 = a.get ⟨i, h⟩ := by
  rw [List.getD_eq_getD_get?, List.get?_eq_get h]
  rfl

lemma sortedNat_of_pairwise {a : List Nat} (h : a.Pairwise (· < ·)) :
    SortedNat a := by
  intro i j hij hj
  rcases Nat.lt_or_ge i j with hlt | hge
  · rw [getD_eq_get a i (lt_trans hlt hj), getD_eq_get a j hj]
    exact le_of_lt (List.pairwise_iff_get.mp h ⟨i, lt_trans hlt hj⟩ ⟨j, hj⟩ hlt)
  · have : i = j := le_antisymm hij hge
    subst this
    exact le_refl _

lemma mem_newlinePositionsFrom :
    ∀ (s : List Char) (n x : Nat), x ∈ newlinePositionsFrom n s → n < x := by
  intro s
  induction s with
  | nil => intro n x hx; simp [newlinePositionsFrom] at hx
  | cons c cs ih =>
    intro n x hx
    by_cases hc : c = '\n'
    · simp only [newlinePositionsFrom, if_pos hc, List.mem_cons] at hx
      rcases hx with h | h
      · omega
      · have := ih (n + 1) x h
        omega
    · simp only [newlinePositionsFrom, if_neg hc] at hx
      have := ih (n + 1) x hx
      omega

lemma pairwise_newlinePositionsFrom :
    ∀ (s : List Char) (n : Nat), (newlinePositionsFrom n s).Pairwise (· < ·) := by
  intro s
  induction s with
  | nil => intro n; simp [newlinePositionsFrom]
  | cons c cs ih =>
    intro n
    by_cases hc : c = '\n'
    · simp only [newlinePositionsFrom, if_pos hc]
      refine List.Pairwise.cons ?_ (ih (n + 1))
      intro x hx
      exact mem_newlinePositionsFrom cs (n + 1) x hx
    · simp only [newlinePositionsFrom, if_neg hc]
      exact ih (n + 1)

lemma linesFor_sorted (s : List Char) : SortedNat (linesFor s) := by
  apply sortedNat_of_pairwise
  refine List.Pairwise.cons ?_ (pairwise_newlinePositionsFrom s 0)
  intro x hx
  exact mem_newlinePositionsFrom s 0 x hx

lemma searchPosAux_spec (a : List Nat) (x : Nat) :
    ∀ fuel i j, j - i ≤ fuel → i ≤ j → j ≤ a.length →
      (∀ k, k < i → a.getD k 0 ≤ x) →
      (∀ k, j ≤ k → k < a.length → x < a.getD k 0) →
      SortedNat a →
      i ≤ searchPosAux a x fuel i j ∧ searchPosAux a x fuel i j ≤ j ∧
        (∀ k, k < searchPosAux a x fuel i j → a.getD k 0 ≤ x) ∧
        (∀ k, searchPosAux a x fuel i j ≤ k → k < a.length →
          x < a.getD k 0) := by
  intro fuel
  induction fuel with
  | zero =>
    intro i j hfuel hij hja hlo hhi _
    have hij' : i = j := by omega
    subst hij'
    exact ⟨le_refl _, le_refl _, hlo, hhi⟩
  | succ m ih =>
    intro i j hfuel hij hja hlo hhi hsort
    by_cases hlt : i < j
    · have hdiv : (j - i) / 2 < j - i := Nat.div_lt_self (by omega) (by omega)
      have hm2 : i + (j - i) / 2 < j := by omega
      simp only [searchPosAux, if_pos hlt]
      by_cases hle : a.getD (i + (j - i) / 2) 0 ≤ x
      · simp only [if_pos hle]
        obtain ⟨h1, h2, h3, h4⟩ :=
          ih (i + (j - i) / 2 + 1) j (by omega) (by omega) hja
            (fun k hk =>
              le_trans (hsort k (i + (j - i) / 2) (by omega) (by omega)) hle)
            hhi hsort
        exact ⟨by omega, h2, h3, h4⟩
      · simp only [if_neg hle]
        obtain ⟨h1, h2, h3, h4⟩ :=
          ih i (i + (j - i) / 2) (by omega) (by omega) (by omega) hlo
            (fun k hk hklen =>
              lt_of_lt_of_le (Nat.lt_of_not_le hle)
                (hsort (i + (j - i) / 2) k hk hklen))
            hsort
        exact ⟨h1, by omega, h3, h4⟩
    · have hij' : i = j := by omega
      subst hij'
      simp only [searchPosAux, if_neg hlt]
      exact ⟨le_refl _, le_refl _, hlo, hhi⟩

lemma searchPos_spec (a : List Nat) (x : Nat) (hsort : SortedNat a) :
    (searchPos a x = -1 ∧ ∀ k, k < a.length → x < a.getD k 0) ∨
    (∃ i, i < a.length ∧ searchPos a x = (i : Int) ∧ a.getD i 0 ≤ x ∧
      ∀ k, k < a.length → a.getD k 0 ≤ x → k ≤ i) := by
  obtain ⟨h1, h2, h3, h4⟩ :=
    searchPosAux_spec a x a.length 0 a.length (by omega) (by omega)
      (le_refl _) (fun k hk => absurd hk (by omega))
      (fun k hk hk2 => absurd (lt_of_le_of_lt hk hk2) (lt_irrefl _)) hsort
  rcases Nat.eq_zero_or_pos (searchPosAux a x a.length 0 a.length) with h0 | hpos
  · left
    constructor
    · simp [searchPos, h0]
    · intro k hk
      exact h4 k (by omega) hk
  · right
    refine ⟨searchPosAux a x a.length 0 a.length - 1, by omega, ?_, ?_, ?_⟩
    · simp only [searchPos]
      omega
    · exact h3 _ (by omega)
    · intro k hk hle
      by_contra hgt
      exact absurd hle (not_le.mpr (h4 k (by omega) hk))

lemma runRunes_lines :
    ∀ (s : List Char) (fuel : Nat) (st : PState), st.inp = s →
      s.length ≤ fuel →
      (runRunes fuel st).lines = st.lines ++ newlinePositionsFrom st.npos s := by
  intro s
  induction s with
  | nil =>
    intro fuel st hinp _
    match fuel with
    | 0 => simp [runRunes, newlinePositionsFrom]
    | fuel + 1 => simp [runRunes, hinp, newlinePositionsFrom]
  | cons c cs ih =>
    intro fuel st hinp hfuel
    match fuel with
    | fuel + 1 =>
      have hstep : runRunes (fuel + 1) st = runRunes fuel (pRune st) := by
        simp [runRunes, hinp]
      rw [hstep]
      have hinp' : (pRune st).inp = cs := by simp [pRune, hinp]
      have hnpos : (pRune st).npos = st.npos + 1 := by simp [pRune, hinp]
      rw [ih fuel (pRune st) hinp' (by simpa using Nat.le_of_succ_le_succ hfuel),
        hnpos]
      by_cases hc : c = '\n'
      · have hlines : (pRune st).lines = st.lines ++ [st.npos + 1] := by
          simp [pRune, hinp, hc]
        rw [hlines]
        simp [newlinePositionsFrom, hc]
      · have hlines : (pRune st).lines = st.lines := by
          simp [pRune, hinp, hc]
        rw [hlines]
        simp [newlinePositionsFrom, hc]

/-- The part list of a `Word`. -/
def wordParts : Word → List WordPart
  | .mk parts => parts

lemma wordPartsLastEnd_getLast :
    ∀ (parts : List WordPart) (h : parts ≠ []),
      wordPartsLastEnd parts = wordPartEnd (parts.getLast h) := by
  intro parts
  induction parts with
  | nil => intro h; exact absurd rfl h
  | cons p ps ih =>
    intro _
    cases ps with
    | nil => simp [wordPartsLastEnd, List.getLast]
    | cons q qs =>
      rw [List.getLast_cons (by simp)]
      exact ih (by simp)

/-- The AST node built by the parser for the script `{ foo; }`
(1-based positions: lbrace 1, `foo` spanning 3..6, rbrace 8): a `Block`
whose only statement is the call `foo`. -/
def c1Child : Stmt :=
  Stmt.mk (some (Command.callExpr [Word.mk [WordPart.lit ⟨3, 6, ['f', 'o', 'o']⟩]]))
    3 0 false false [] []

/-- The `Block` node for `{ foo; }` (see `c1Child`). -/
def c1Block : Command := Command.block 1 8 [c1Child]

/-- Claim C1: for every AST node from a valid script, `End() ≥ Pos()` and
every child's span is contained in its parent's span.  The code violates
the containment half: `Block.Pos` returns the `Rbrace` field (nodes.go
line 213), so for `{ foo; }` the block's span is `[8, 9)` while its child
statement spans `[3, 6)` — the child starts strictly before its parent.
(The `Node.Pos` contract in nodes.go says Pos is the first character of
the node, and the stored `Lbrace` field is otherwise unused.) -/
theorem C1_block_pos_breaks_containment :
    commandPos c1Block = some 8 ∧ commandEnd c1Block = some 9 ∧
    stmtPos c1Child = 3 ∧ stmtEnd c1Child = some 6 ∧
    ∃ bp, commandPos c1Block = some bp ∧ stmtPos c1Child < bp := by
  refine ⟨rfl, rfl, rfl, rfl, 8, rfl, ?_⟩
  show (3 : Nat) < 8
  norm_num

/-- Claim C8: `End()` of every keyword-terminated construct is the stored
closing-keyword position plus that keyword's literal length (`fi` = 2,
`done` = 4, `esac` = 4). -/
theorem C8_keyword_end_offsets :
    (∀ (ifPos thenPos elsePos fiPos : Nat) condStmts thenStmts elifs elseStmts,
      commandEnd (Command.ifClause ifPos thenPos elsePos fiPos condStmts
        thenStmts elifs elseStmts) = some (fiPos + "fi".length)) ∧
    (∀ (whilePos doPos donePos : Nat) condStmts doStmts,
      commandEnd (Command.whileClause whilePos doPos donePos condStmts
        doStmts) = some (donePos + "done".length)) ∧
    (∀ (untilPos doPos donePos : Nat) condStmts doStmts,
      commandEnd (Command.untilClause untilPos doPos donePos condStmts
        doStmts) = some (donePos + "done".length)) ∧
    (∀ (casePos esacPos : Nat) word list,
      commandEnd (Command.caseClause casePos esacPos word list) =
        some (esacPos + "esac".length)) := by
  have h2 : "fi".length = 2 := rfl
  have h4 : "done".length = 4 := rfl
  have h4' : "esac".length = 4 := rfl
  refine ⟨?_, ?_, ?_, ?_⟩ <;> intros <;>
    simp [commandEnd, h2, h4, h4']

/-- Claim C9: for every `Word` whose part list is non-empty, `Pos()` and
`End()` are well-defined (the first/last indexing resolves, never `none`
by out-of-bounds), `Pos()` is the first part's `Pos()` and `End()` is the
last part's `End()`. -/
theorem C9_word_span (w : Word) (h : wordParts w ≠ []) :
    wordPos w = some (wordPartPos ((wordParts w).head h)) ∧
    wordEnd w = wordPartEnd ((wordParts w).getLast h) := by
  obtain ⟨parts⟩ := w
  cases parts with
  | nil => exact absurd rfl h
  | cons p ps =>
    constructor
    · simp [wordPos, wordParts]
    · show wordPartsLastEnd (p :: ps) = _
      exact wordPartsLastEnd_getLast (p :: ps) (by simp)

/-- Witness for C9 at the concrete one-part word `abc` spanning 1..4. -/
theorem C9_word_span_witness :
    wordPos (Word.mk [WordPart.lit ⟨1, 4, ['a', 'b', 'c']⟩]) = some 1 ∧
    wordEnd (Word.mk [WordPart.lit ⟨1, 4, ['a', 'b', 'c']⟩]) = some 4 := by
  have h := C9_word_span (Word.mk [WordPart.lit ⟨1, 4, ['a', 'b', 'c']⟩])
    (by simp [wordParts])
  simpa [wordParts, wordPartPos, wordPartEnd, litPos, litEnd] using h

/-- Claim C10: for a `File` with an empty statement list, `Pos()` and
`End()` both return 0, the invalid/unset position (`IsValid` is false),
rather than failing (`File.End` still yields a value, never a panic). -/
theorem C10_empty_file (f : SFile) (h : f.stmts = []) :
    filePos f = 0 ∧ fileEnd f = some 0 ∧ posIsValid (filePos f) = false := by
  refine ⟨?_, ?_, ?_⟩ <;> simp [filePos, fileEnd, h, posIsValid]

/-- Witness for C10 at the concrete empty file. -/
theorem C10_empty_file_witness :
    filePos ⟨[], [], [], []⟩ = 0 ∧ fileEnd ⟨[], [], [], []⟩ = some 0 ∧
    posIsValid (filePos ⟨[], [], [], []⟩) = false :=
  C10_empty_file ⟨[], [], [], []⟩ rfl

lemma getD_mem (a : List Nat) (i : Nat) (h : i < a.length) :
    a.getD i 0 ∈ a := by
  rw [getD_eq_get a i h]
  exact List.get_mem a _ _

/-- Claim C2: `File.Position` resolves a position by binary search over the
recorded newline offsets — it finds the greatest recorded offset `≤ p`,
returns line = index+1 and column = p minus that offset; every position
before the first recorded newline resolves to line 1 (the index is seeded
with offset 0 by the parser initialization, modelled in `linesFor`, and
`parser.rune` appends each newline position — third conjunct); and for
`foo\nbar` the position of `b` (position 5) resolves to line 2, column 1. -/
theorem C2_position_resolution :
    (∀ (a : List Nat) (p : Nat), SortedNat a →
      (searchPos a p = -1 ∧ (filePosition a p).line = 0 ∧
        ∀ k, k < a.length → p < a.getD k 0) ∨
      (∃ i, i < a.length ∧ searchPos a p = (i : Int) ∧
        a.getD i 0 ≤ p ∧ (∀ k, k < a.length → a.getD k 0 ≤ p → k ≤ i) ∧
        (filePosition a p).line = i + 1 ∧
        (filePosition a p).column = p - a.getD i 0)) ∧
    (∀ (s : List Char) (p : Nat),
      (∀ q, q ∈ newlinePositionsFrom 0 s → p < q) →
      (filePosition (linesFor s) p).line = 1 ∧
      (filePosition (linesFor s) p).column = p) ∧
    (∀ (s : List Char) (fuel : Nat) (st : PState),
      st.inp = s → st.npos = 0 → st.lines = [0] → s.length ≤ fuel →
      (runRunes fuel st).lines = linesFor s) ∧
    filePositionF ⟨[], [], [], linesFor "foo\nbar".toList⟩ 5 = ⟨4, 2, 1⟩ := by
  have main : ∀ (a : List Nat) (p : Nat), SortedNat a →
      (searchPos a p = -1 ∧ (filePosition a p).line = 0 ∧
        ∀ k, k < a.length → p < a.getD k 0) ∨
      (∃ i, i < a.length ∧ searchPos a p = (i : Int) ∧
        a.getD i 0 ≤ p ∧ (∀ k, k < a.length → a.getD k 0 ≤ p → k ≤ i) ∧
        (filePosition a p).line = i + 1 ∧
        (filePosition a p).column = p - a.getD i 0) := by
    intro a p hs
    rcases searchPos_spec a p hs with ⟨heq, hall⟩ | ⟨i, hlen, heq, hle, hmax⟩
    · left
      refine ⟨heq, ?_, hall⟩
      simp [filePosition, heq]
    · right
      refine ⟨i, hlen, heq, hle, hmax, ?_, ?_⟩ <;>
        simp [filePosition, heq]
  refine ⟨main, ?_, ?_, ?_⟩
  · intro s p hq
    have hs := linesFor_sorted s
    rcases main (linesFor s) p hs with ⟨_, _, hall⟩ | ⟨i, hlen, _, hle, _, hline, hcol⟩
    · exfalso
      have h0 : (0 : Nat) < (linesFor s).length := by simp [linesFor]
      have := hall 0 h0
      simp [linesFor] at this
    · have hi0 : i = 0 := by
        by_contra hne
        have hi1 : 1 ≤ i := by omega
        have hmem : (linesFor s).getD i 0 ∈ newlinePositionsFrom 0 s := by
          have := getD_mem (linesFor s) i hlen
          simp only [linesFor, List.mem_cons] at this
          rcases this with h | h
          · exfalso
            have hq' : ∀ q ∈ newlinePositionsFrom 0 s, 0 < q :=
              fun q hmq => mem_newlinePositionsFrom s 0 q hmq
            -- getD i of (0 :: tail) at i ≥ 1 is an element of the tail
            have hstep : (0 :: newlinePositionsFrom 0 s).getD i 0 =
                (newlinePositionsFrom 0 s).getD (i - 1) 0 := by
              rw [show i = (i - 1) + 1 by omega]
              rfl
            rw [hstep] at h
            have hlen' : i - 1 < (newlinePositionsFrom 0 s).length := by
              simp only [linesFor, List.length_cons] at hlen
              omega
            have := getD_mem (newlinePositionsFrom 0 s) (i - 1) hlen'
            rw [h] at this
            exact absurd (hq' 0 this) (lt_irrefl 0)
          · exact h
        exact absurd hle (not_le.mpr (hq _ hmem))
      subst hi0
      constructor
      · simpa using hline
      · have : (linesFor s).getD 0 0 = 0 := rfl
        rw [hcol, this]
        omega
  · intro s fuel st hinp hnpos hlines hfuel
    rw [runRunes_lines s fuel st hinp hfuel, hlines, hnpos]
    rfl
  · decide

/-- Witness for C2: positions before the first recorded newline of
`foo\nbar` resolve to line 1 (instantiating the second conjunct at
position 2). -/
theorem C2_position_resolution_witness :
    (filePosition (linesFor "foo\nbar".toList) 2).line = 1 ∧
    (filePosition (linesFor "foo\nbar".toList) 2).column = 2 :=
  C2_position_resolution.2.1 "foo\nbar".toList 2 (by decide)

/-- The stream of runes not yet claimed by any token: the current
(lookahead) rune followed by the unread input. -/
def unconsumed (st : PState) : List Char :=
  match st.r with
  | some c => c :: st.inp
  | none => st.inp

lemma unconsumed_pRune (st : PState) : unconsumed (pRune st) = st.inp := by
  cases h : st.inp with
  | nil =>
    by_cases hr : st.r = none <;> simp [pRune, unconsumed, h, hr]
  | cons b rest => simp [pRune, unconsumed, h]

lemma pRune_r_of_inp (st : PState) (c : Char) (rest : List Char)
    (h : st.inp = c :: rest) : (pRune st).r = some c := by
  simp [pRune, h]

lemma unconsumed_withTok (st : PState) (t : Token) :
    unconsumed { st with tok := t } = unconsumed st := by
  cases st
  rfl

/-- The doubled parameter-expansion operators, written out from the
spec's description of longest-match pairs (spec section 4.2), amended with
`##` which the source also pairs: this is the table the source's
`paramToken` is compared against. -/
def paramDouble (c c2 : Char) : Option Token :=
  if c = ':' ∧ c2 = '+' then some .colPlus
  else if c = ':' ∧ c2 = '-' then some .colMinus
  else if c = ':' ∧ c2 = '?' then some .colQuest
  else if c = ':' ∧ c2 = '=' then some .colAssgn
  else if c = '%' ∧ c2 = '%' then some .dblPerc
  else if c = '#' ∧ c2 = '#' then some .dblHash
  else if c = '/' ∧ c2 = '/' then some .dblSlash
  else if c = '^' ∧ c2 = '^' then some .dblCaret
  else if c = ',' ∧ c2 = ',' then some .dblComma
  else none

/-- The single-character fallback tokens of `paramToken` (the default case
of the source returns the `at` token, so `]` maps there too). -/
def paramSingle (c : Char) : Token :=
  if c = '}' then .rightBrace
  else if c = ':' then .colon
  else if c = '+' then .plus
  else if c = '-' then .minus
  else if c = '?' then .quest
  else if c = '=' then .assgn
  else if c = '%' then .perc
  else if c = '#' then .hash
  else if c = '[' then .leftBrack
  else if c = '/' then .slash
  else if c = '^' then .caret
  else if c = ',' then .comma
  else .atTok

/-- Counterexample for C5: the claim says `##` is not a valid
doubled-operator token, but `paramToken` on `#` followed by `#` produces
the single doubled token `dblHash` (consuming both characters), not the
single-character `hash` token. -/
theorem C5_counterexample :
    (paramToken { r := some '#', inp := ['#', '}'] } '#').tok = Token.dblHash ∧
    unconsumed (paramToken { r := some '#', inp := ['#', '}'] } '#') = ['}'] ∧
    Token.dblHash ≠ Token.hash := by
  refine ⟨by decide, by decide, by decide⟩

/-- Claim C5 (amended): in parameter-expansion tokenization, each of
`:-`, `:+`, `:?`, `:=`, `%%`, `##`, `//`, `^^`, `,,` lexes as one
doubled-operator token consuming both characters; every other pairing
(including `::`) falls back to the operator's single-character token,
leaving the second character unconsumed. -/
theorem C5_param_longest_match (st : PState) (c c2 : Char) (rest : List Char)
    (hop : paramOps c) (hr : st.r = some c) (hinp : st.inp = c2 :: rest) :
    match paramDouble c c2 with
    | some t => (paramToken st c).tok = t ∧
        unconsumed (paramToken st c) = rest
    | none => (paramToken st c).tok = paramSingle c ∧
        unconsumed (paramToken st c) = c2 :: rest := by
  have hst1r : (pRune st).r = some c2 := pRune_r_of_inp st c2 rest hinp
  have hst1inp : (pRune st).inp = rest := by simp [pRune, hinp]
  have huncons : unconsumed (pRune st) = c2 :: rest := by
    simp [unconsumed, hst1r, hst1inp]
  have huncons2 : unconsumed (pRune (pRune st)) = rest := by
    rw [unconsumed_pRune, hst1inp]
  have hone : ∀ t : Token, unconsumed { pRune st with tok := t } = c2 :: rest := by
    intro t
    rw [unconsumed_withTok, huncons]
  have htwo : ∀ t : Token, unconsumed { pRune (pRune st) with tok := t } = rest := by
    intro t
    rw [unconsumed_withTok, huncons2]
  rcases (by simpa [paramOps] using hop :
      c = '}' ∨ c = '#' ∨ c = ':' ∨ c = '-' ∨ c = '+' ∨ c = '=' ∨ c = '?' ∨
      c = '%' ∨ c = '[' ∨ c = ']' ∨ c = '/' ∨ c = '^' ∨ c = ',' ∨ c = '@')
    with rfl | rfl | rfl | rfl | rfl | rfl | rfl | rfl | rfl | rfl | rfl |
      rfl | rfl | rfl
  · simpa [paramToken, paramDouble, paramSingle] using hone _
  · by_cases h2 : c2 = '#'
    · subst h2
      simpa [paramToken, paramDouble, hst1r] using htwo _
    · simpa [paramToken, paramDouble, paramSingle, hst1r, h2] using hone _
  · by_cases h2 : c2 = '+'
    · subst h2
      simpa [paramToken, paramDouble, hst1r] using htwo _
    · by_cases h3 : c2 = '-'
      · subst h3
        simpa [paramToken, paramDouble, hst1r] using htwo _
      · by_cases h4 : c2 = '?'
        · subst h4
          simpa [paramToken, paramDouble, hst1r] using htwo _
        · by_cases h5 : c2 = '='
          · subst h5
            simpa [paramToken, paramDouble, hst1r] using htwo _
          · simpa [paramToken, paramDouble, paramSingle, hst1r,
              h2, h3, h4, h5] using hone _
  · simpa [paramToken, paramDouble, paramSingle] using hone _
  · simpa [paramToken, paramDouble, paramSingle] using hone _
  · simpa [paramToken, paramDouble, paramSingle] using hone _
  · simpa [paramToken, paramDouble, paramSingle] using hone _
  · by_cases h2 : c2 = '%'
    · subst h2
      simpa [paramToken, paramDouble, hst1r] using htwo _
    · simpa [paramToken, paramDouble, paramSingle, hst1r, h2] using hone _
  · simpa [paramToken, paramDouble, paramSingle] using hone _
  · simpa [paramToken, paramDouble, paramSingle] using hone _
  · by_cases h2 : c2 = '/'
    · subst h2
      simpa [paramToken, paramDouble, hst1r] using htwo _
    · simpa [paramToken, paramDouble, paramSingle, hst1r, h2] using hone _
  · by_cases h2 : c2 = '^'
    · subst h2
      simpa [paramToken, paramDouble, hst1r] using htwo _
    · simpa [paramToken, paramDouble, paramSingle, hst1r, h2] using hone _
  · by_cases h2 : c2 = ','
    · subst h2
      simpa [paramToken, paramDouble, hst1r] using htwo _
    · simpa [paramToken, paramDouble, paramSingle, hst1r, h2] using hone _
  · simpa [paramToken, paramDouble, paramSingle] using hone _

/-- Witness for C5: `:-` collapses to the doubled token `colMinus`. -/
theorem C5_param_longest_match_witness :
    (paramToken { r := some ':', inp := ['-', 'x'] } ':').tok = Token.colMinus ∧
    unconsumed (paramToken { r := some ':', inp := ['-', 'x'] } ':') = ['x'] :=
  C5_param_longest_match { r := some ':', inp := ['-', 'x'] } ':' '-' ['x']
    (by decide) rfl rfl

/-- Counterexample for C6: the claim says every advance-literal routine
elides a backslash-newline pair, but `advanceLitDquote` keeps both
characters: lexing the double-quoted content `a\<newline>b"` yields the
literal `a\<newline>b`, with the backslash and the newline both present,
not `ab`. -/
theorem C6_counterexample :
    ((advanceLitDquote 10
        { r := some 'a', inp := ['\\', '\n', 'b', '"'], quote := .dblQuotes }
        'a').map PState.val) = some ['a', '\\', '\n', 'b'] ∧
    (['a', '\\', '\n', 'b'] : List Char) ≠ ['a', 'b'] := by
  refine ⟨by decide, by decide⟩

/-- Claim C6 (amended): in `advanceLitNone` and `advanceLitOther` a
backslash followed by any rune is copied verbatim into the accumulated
literal except backslash-newline, which is elided (both characters are
dropped from the literal buffer); in `advanceLitDquote` the backslash and
the rune after it are always kept, the newline included.  Each conjunct is
the one-iteration equation of the corresponding loop at a backslash: the
literal buffer held `acc ++ [backslash]` and continues as `acc` (elision)
or as `acc ++ [backslash, c]` (verbatim copy). -/
theorem C6_escape_handling :
    (∀ (fuel : Nat) (tok : Token) (acc rest : List Char) (base : PState),
      advanceLitNoneLoop (fuel + 1)
        { base with r := some '\\',
                    inp := '\n' :: rest,
                    litBs := some (acc ++ ['\\']) } tok =
      advanceLitNoneLoop fuel
        (pRune { base with r := some '\n',
                           inp := rest,
                           npos := base.npos + 1,
                           lines := base.lines ++ [base.npos + 1],
                           litBs := some acc }) tok) ∧
    (∀ (fuel : Nat) (tok : Token) (acc rest : List Char) (base : PState),
      advanceLitOtherLoop (fuel + 1)
        { base with r := some '\\',
                    inp := '\n' :: rest,
                    litBs := some (acc ++ ['\\']) } tok =
      advanceLitOtherLoop fuel
        (pRune { base with r := some '\n',
                           inp := rest,
                           npos := base.npos + 1,
                           lines := base.lines ++ [base.npos + 1],
                           litBs := some acc }) tok) ∧
    (∀ (fuel : Nat) (tok : Token) (acc : List Char) (c : Char)
        (rest : List Char) (base : PState), c ≠ '\n' →
      advanceLitNoneLoop (fuel + 1)
        { base with r := some '\\',
                    inp := c :: rest,
                    litBs := some (acc ++ ['\\']) } tok =
      advanceLitNoneLoop fuel
        (pRune { base with r := some c,
                           inp := rest,
                           npos := base.npos + 1,
                           litBs := some (acc ++ ['\\', c]) }) tok) ∧
    (∀ (fuel : Nat) (tok : Token) (acc : List Char) (c : Char)
        (rest : List Char) (base : PState), c ≠ '\n' →
      advanceLitOtherLoop (fuel + 1)
        { base with r := some '\\',
                    inp := c :: rest,
                    litBs := some (acc ++ ['\\']) } tok =
      advanceLitOtherLoop fuel
        (pRune { base with r := some c,
                           inp := rest,
                           npos := base.npos + 1,
                           litBs := some (acc ++ ['\\', c]) }) tok) ∧
    (∀ (fuel : Nat) (tok : Token) (acc : List Char) (c : Char)
        (rest : List Char) (base : PState),
      advanceLitDquoteLoop (fuel + 1)
        { base with r := some '\\',
                    inp := c :: rest,
                    litBs := some (acc ++ ['\\']) } tok =
      advanceLitDquoteLoop fuel
        (pRune { base with r := some c,
                           inp := rest,
                           npos := base.npos + 1,
                           lines := if c = '\n' then base.lines ++ [base.npos + 1]
                                    else base.lines,
                           litBs := some (acc ++ ['\\', c]) }) tok) := by
  have hlit : ∀ acc : List Char,
      ((acc ++ ['\\']) ++ ['\n']).take (((acc ++ ['\\']) ++ ['\n']).length - 2) =
        acc := by
    intro acc
    rw [List.append_assoc]
    simp [List.take_left]
  refine ⟨?_, ?_, ?_, ?_, ?_⟩
  · intro fuel tok acc rest base
    simp only [advanceLitNoneLoop, pRune, discardLit]
    norm_num
    intro h
    exact absurd h (by decide)
  · intro fuel tok acc rest base
    simp only [advanceLitOtherLoop, pRune, discardLit]
    norm_num
  · intro fuel tok acc c rest base hc
    simp only [advanceLitNoneLoop, pRune, discardLit]
    norm_num [hc]
    intro h
    exact absurd h (by decide)
  · intro fuel tok acc c rest base hc
    simp only [advanceLitOtherLoop, pRune, discardLit]
    norm_num [hc]
  · intro fuel tok acc c rest base
    simp only [advanceLitDquoteLoop, pRune]
    norm_num
    intro h
    exact absurd h (by decide)

/-- Witness for C6: one verbatim-copy step of `advanceLitNoneLoop` at the
escaped (non-newline) character `x`. -/
theorem C6_escape_handling_witness :
    advanceLitNoneLoop 2
      { r := some '\\', inp := ['x', 'b'], litBs := some ['a', '\\'] }
      Token.tLitWord =
    advanceLitNoneLoop 1
      (pRune { r := some 'x', inp := ['b'], npos := 1,
               litBs := some ['a', '\\', 'x'] }) Token.tLitWord :=
  C6_escape_handling.2.2.1 1 Token.tLitWord ['a'] 'x' ['b'] {} (by decide)

/-- The lexer state at the moment the heredoc body of
`cat <<EOF\nhello\nEOF\n` starts to be lexed: the first body rune `h`
(position 11) is current, the registered stop word is `EOF`, the mode is
heredoc-body, and the newline of the `cat` line (position 10) has been
recorded. -/
def c3Start : PState :=
  { r := some 'h', inp := "ello\nEOF\n".toList, npos := 11,
    quote := .hdocBody, hdocStop := some ['E', 'O', 'F'], lines := [0, 10] }

/-- Claim C3: lexing the heredoc body of `cat <<EOF\nhello\nEOF\n` in
heredoc-body mode with stop word `EOF` yields the literal `hello\n`; the
matched delimiter text is discarded from the accumulated literal, the stop
word is cleared (the mode's exit condition), and the parser is left
positioned after the `EOF` line (the final newline is the current rune and
no input remains).  The same holds for the whole-body `hdocLitWord`
routine, whose one-part `Word` carries the literal `hello\n` spanning
positions 11..20. -/
theorem C3_heredoc_body :
    ((advanceLitHdoc 50 c3Start 'h').map fun s =>
        (s.val, s.hdocStop, s.r, s.inp, s.tok)) =
      some (['h', 'e', 'l', 'l', 'o', '\n'], none, some '\n', [],
        Token.tLit) ∧
    ((hdocLitWord 50 c3Start).map fun p =>
        (wordParts p.1, p.2.r, p.2.inp)) =
      some ([WordPart.lit ⟨11, 20, ['h', 'e', 'l', 'l', 'o', '\n']⟩],
        some '\n', []) := by
  exact ⟨rfl, rfl⟩

/-- A lexer state in regular (none) mode, POSIX-conformant, with `?` as
the current rune and `(` as the next byte. -/
def c4Posix : PState :=
  { r := some '?', inp := ['(', 'x', ')'], quote := .noState,
    posixConformant := true }

/-- Claim C4: the extended-glob tokens are claimed to be produced only in
Bash-compatible mode, but the lexer case for `? * + @ !` followed by `(`
has no `p.bash()` gate (unlike every other Bash-only operator in
`regToken`): in POSIX-conformant mode `next` on `?(` still emits
`globQuest`.  The third conjunct checks the lookahead condition: without
the following `(` the same input lexes as a literal word. -/
theorem C4_extglob_not_gated_by_posix :
    ((next 10 c4Posix).map PState.tok) = some Token.globQuest ∧
    ((next 10 { c4Posix with posixConformant := false }).map PState.tok) =
      some Token.globQuest ∧
    ((next 10 { c4Posix with inp := ['x', ')'] }).map PState.tok) =
      some Token.tLitWord := by
  exact ⟨by decide, by decide, by decide⟩

/-- A lexer state in double-quoted mode carrying a recorded error, with
buffered input still unread (reachable through `fill` recording a non-EOF
read error while bytes remain buffered). -/
def c7ErrState : PState :=
  { r := some 'x', inp := ['"'], quote := .dblQuotes, err := true }

/-- Counterexample for C7: the claim says every `next()` call after an
error has been recorded yields the end-of-input token, but the keep-spaces
path (`nextKeepSpaces`) returns before the error check at the end of
`next`: in double-quoted mode with the error flag set and buffered input
left, `next` still emits a literal-word token. -/
theorem C7_counterexample :
    c7ErrState.err = true ∧
    ((next 5 c7ErrState).map PState.tok) = some Token.tLitWord ∧
    Token.tLitWord ≠ Token.tEOF := by
  exact ⟨rfl, by decide, by decide⟩

/-- Claim C7 (amended): once an error has been recorded and the reader is
at the end-of-input sentinel — which the error-recording path establishes
together with setting the error — every subsequent `next()` yields the
end-of-input token, in every quote mode; moreover, on the regular
(skip-space) dispatch path `next` never hands back a state that still
carries an error together with a token other than end-of-input. -/
theorem C7_error_eof_short_circuit :
    (∀ (fuel : Nat) (st : PState), st.err = true → st.r = none →
      ((next (fuel + 1) st).map PState.tok) = some Token.tEOF) ∧
    (∀ (fuel : Nat) (st : PState) (c : Char) (nextFn : PState → Option PState)
        (st' : PState), st.r = some c →
      ¬(c = ' ' ∨ c = '\t' ∨ c = '\r' ∨ c = '\n') →
      ¬(c = '\\' ∧ peekByte st '\n') →
      nextSkipSpace nextFn (fuel + 1) st = some st' →
      st'.tok = Token.tEOF ∨ st'.err = false) := by
  constructor
  · intro fuel st _ hr
    simp [next, hr]
  · intro fuel st c nextFn st' hr hnc hnb hres
    have h1 : ¬(c = ' ' ∨ c = '\t' ∨ c = '\r') := fun h => hnc (by tauto)
    have h2 : ¬(c = '\n') := fun h => hnc (by tauto)
    simp only [nextSkipSpace, hr, if_neg h1, if_neg h2, if_neg hnb] at hres
    rcases Option.map_eq_some'.mp hres with ⟨a, _, hfn⟩
    by_cases hcase : a.err = true ∧ ¬ a.tok = Token.tEOF
    · left
      rw [← hfn, if_pos (by simpa using hcase)]
    · rw [← hfn, if_neg (by simpa using hcase)]
      rcases Bool.eq_false_or_eq_true a.err with he | he
      · left
        rcases not_and_or.mp hcase with h | h
        · exact absurd he h
        · simpa using h
      · right
        exact he

/-- Witness for C7: from the poisoned end-of-input state with the error
flag set, `next` yields the end-of-input token. -/
theorem C7_error_eof_short_circuit_witness :
    ((next 1 { r := none, err := true }).map PState.tok) =
      some Token.tEOF :=
  C7_error_eof_short_circuit.1 0 { r := none, err := true } rfl rfl

end ShSyntax
